import Mathlib

/-!
Verification of the metadata-driven controller registration and API-surface
generation system: a shallow embedding of the registry, the `Controller`
class decorator, the cross-cutting middleware factories (rate limiting,
caching), the router builder, and the documentation (OpenAPI) generator's
route-mapping and path-normalization logic.

Handlers (Express `RequestHandler` values) are opaque to the registration
machinery: the code only stores, rebinds and wraps them, so they are
modelled by a type parameter `H`.  JavaScript `undefined` (which can arise
as the terminal handler of an empty middleware array) is modelled by
`Option H`.  Example payloads (`value: any`) are a type parameter `J`.
Strings that undergo character-level processing (paths, derived names) are
modelled as `List Char`.
-/

set_option autoImplicit false

namespace ApiCore

/-! ## Registry: the `ControllerRegistry` class (controller.decorator.ts)

The registry is a JavaScript `Map<string, ControllerMetadata>`; a `Map`
preserves insertion order, and `set` on an existing key overwrites the
value in place.  It is modelled as an association list. -/

/-- The state of a JS `Map` with string keys: entries in insertion order. -/
def RegState (M : Type) : Type := List (String × M)

/-- JS `Map.get`. -/
def mapGet {M : Type} (k : String) : RegState M → Option M
  | [] => none
  | (k', v) :: rest => if k' = k then some v else mapGet k rest

/-- JS `Map.set`: overwrite in place if the key exists, else append. -/
def mapSet {M : Type} (k : String) (v : M) : RegState M → RegState M
  | [] => [(k, v)]
  | (k', v') :: rest =>
    if k' = k then (k', v) :: rest else (k', v') :: mapSet k v rest

/-- `ControllerRegistry.register(name, metadata)`: upsert by name.
Returns only the new state (the method returns `void`). -/
def regRegister {M : Type} (name : String) (md : M) (st : RegState M) : RegState M :=
  mapSet name md st

/-- `ControllerRegistry.get(name)`, as a state transformer: result, state. -/
def regGet {M : Type} (name : String) (st : RegState M) : Option M × RegState M :=
  (mapGet name st, st)

/-- `ControllerRegistry.getAllControllers()`: returns `new Map(controllers)`,
a snapshot copy; the state is untouched. -/
def regGetAll {M : Type} (st : RegState M) : RegState M × RegState M :=
  (st, st)

/-! ## Data model (controller.decorator.ts, example.decorator.ts) -/

/-- `RequestExample`: `{summary?, description?, value: any}`. -/
structure RequestExample (J : Type) where
  summary : Option String := none
  description : Option String := none
  value : J
  deriving DecidableEq

/-- `ResponseExample`: `{status, summary?, description?, value: any}`. -/
structure ResponseExample (J : Type) where
  status : Nat
  summary : Option String := none
  description : Option String := none
  value : J
  deriving DecidableEq

/-- `RouteInfo`, the record written by a route decorator into the
`"route:info"` metadata side-table.  `method` is one of the five verb
strings in the source's union type; paths are kept at character level for
the documentation-generator proofs. -/
structure RouteInfo (J : Type) where
  method : String
  path : List Char
  summary : Option String := none
  description : Option String := none
  tags : Option (List String) := none
  requestExamples : Option (List (RequestExample J)) := none
  responseExamples : Option (List (ResponseExample J)) := none
  deriving DecidableEq

/-- `RouteMetadata`: the flattened router-ready view of one route.
`handler` is the bound handler; `none` models JS `undefined` (possible when
a decorated method's array was empty). -/
structure RouteMetadata (H J : Type) where
  method : String
  path : List Char
  handler : Option H
  middlewares : List H
  summary : Option String := none
  description : Option String := none
  tags : Option (List String) := none
  requestExamples : Option (List (RequestExample J)) := none
  responseExamples : Option (List (ResponseExample J)) := none
  deriving DecidableEq

/-- `MethodMetadata` for one declared method. -/
structure MethodMetadata (H J : Type) where
  name : String
  middlewares : List H
  handler : Option H
  boundHandler : Option H
  routeInfo : Option (RouteInfo J) := none
  deriving DecidableEq

/-- `ControllerMetadata`.  The source also stores `target` (the class) and
`instance` (the single constructed object); both are object identities with
no functional content, so they are not represented. -/
structure ControllerMetadata (H J : Type) where
  methods : List (String × MethodMetadata H J)
  routes : List (RouteMetadata H J)
  deriving DecidableEq

/-- `getControllerRoutes(name)`: `this.controllers.get(name)?.routes`. -/
def getControllerRoutes {H J : Type} (name : String)
    (st : RegState (ControllerMetadata H J)) : Option (List (RouteMetadata H J)) :=
  (mapGet name st).map (fun c => c.routes)

/-- `getControllerMethods(name)`: `this.controllers.get(name)?.methods`. -/
def getControllerMethods {H J : Type} (name : String)
    (st : RegState (ControllerMetadata H J)) :
    Option (List (String × MethodMetadata H J)) :=
  (mapGet name st).map (fun c => c.methods)

/-! ## The `Controller` class decorator (controller.decorator.ts)

A prototype own-property is a plain function, an array (a method already
transformed by declaration-layer decorators into
`[middleware1, ..., terminalHandler]`), or some other value.  The
`Reflect` metadata side-table keyed by method name is a function
`String → Option RouteInfo`. -/

/-- Value of one own property of the class prototype. -/
inductive PropValue (H : Type) where
  | func (f : H)
  | chain (fs : List H)
  | other
  deriving DecidableEq

/-- The filter on `Object.getOwnPropertyNames(prototype)`: drop
`"constructor"`, keep functions and arrays. -/
def isEnumeratedMethod {H : Type} (p : String × PropValue H) : Bool :=
  p.1 != "constructor" &&
    (match p.2 with
     | PropValue.func _ => true
     | PropValue.chain _ => true
     | PropValue.other => false)

/-- Middlewares of a method value: for an array, all but the last entry;
for a plain function, none. -/
def middlewaresOf {H : Type} : PropValue H → List H
  | PropValue.func _ => []
  | PropValue.chain fs => fs.dropLast
  | PropValue.other => []

/-- The terminal handler of a method value: for an array its last element
(`undefined`, i.e. `none`, if the array is empty); for a plain function the
function bound to the instance (`method.bind(instance)`). -/
def handlerOf {H : Type} (bindInst : H → H) : PropValue H → Option H
  | PropValue.func f => some (bindInst f)
  | PropValue.chain fs => fs.getLast?
  | PropValue.other => none

/-- `typeof handler === "function" ? catchAsync(handler) : handler`. -/
def boundHandlerOf {H : Type} (catchA : H → H) (bindInst : H → H)
    (pv : PropValue H) : Option H :=
  (handlerOf bindInst pv).map catchA

/-- The `MethodMetadata` record built for one method in the loop body. -/
def buildMethodMetadata {H J : Type} (catchA bindInst : H → H)
    (nm : String) (pv : PropValue H) (ri : Option (RouteInfo J)) :
    MethodMetadata H J :=
  { name := nm
    middlewares := middlewaresOf pv
    handler := handlerOf bindInst pv
    boundHandler := boundHandlerOf catchA bindInst pv
    routeInfo := ri }

/-- The `RouteMetadata` pushed onto `routes` when `routeInfo` exists. -/
def routeOfInfo {H J : Type} (ri : RouteInfo J) (bh : Option H)
    (mws : List H) : RouteMetadata H J :=
  { method := ri.method
    path := ri.path
    handler := bh
    middlewares := mws
    summary := ri.summary
    description := ri.description
    tags := ri.tags
    requestExamples := ri.requestExamples
    responseExamples := ri.responseExamples }

/-- The per-method loop of the `Controller` decorator, over the filtered
method names in enumeration order, accumulating the `methods` map and the
`routes` list. -/
def buildMembers {H J : Type} (catchA bindInst : H → H)
    (routeTable : String → Option (RouteInfo J)) :
    List (String × PropValue H) →
    List (String × MethodMetadata H J) × List (RouteMetadata H J)
  | [] => ([], [])
  | (nm, pv) :: rest =>
    let mm := buildMethodMetadata catchA bindInst nm pv (routeTable nm)
    let tail := buildMembers catchA bindInst routeTable rest
    ((nm, mm) :: tail.1,
      (match routeTable nm with
       | some ri =>
         [routeOfInfo ri (boundHandlerOf catchA bindInst pv) (middlewaresOf pv)]
       | none => []) ++ tail.2)

/-- `ControllerMetadata` assembled by the `Controller` decorator from the
prototype's own properties (in enumeration order) and the route side-table. -/
def decorateController {H J : Type} (catchA bindInst : H → H)
    (proto : List (String × PropValue H))
    (routeTable : String → Option (RouteInfo J)) : ControllerMetadata H J :=
  let members := buildMembers catchA bindInst routeTable
    (proto.filter isEnumeratedMethod)
  { methods := members.1, routes := members.2 }

/-- The full `Controller(name)` decorator applied to a class: build the
metadata and commit it with `controllerRegistry.register`. -/
def controllerDecoratorRun {H J : Type} (catchA bindInst : H → H)
    (name : String) (proto : List (String × PropValue H))
    (routeTable : String → Option (RouteInfo J))
    (st : RegState (ControllerMetadata H J)) :
    RegState (ControllerMetadata H J) :=
  regRegister name (decorateController catchA bindInst proto routeTable) st

/-! ## Documentation-path normalization (openapiGenerator.ts)

`generateOpenAPISpec` computes
`pathKey = route.path.replace(/:([^\x2f]+)/g, "\x7b$1\x7d")` and turns a
bare `"/"` into the empty string; `generateSpec` prefixes
`basePath + routePrefix` (re-checking for `"/"`). -/

def lbrace : Char := Char.ofNat 123

def rbrace : Char := Char.ofNat 125

/-- The global regex replacement: each `:` followed by a maximal nonempty
run of non-`/` characters becomes that run wrapped in braces; scanning
resumes after the match. -/
def replaceParams : List Char → List Char
  | [] => []
  | c :: rest =>
    if c = ':' ∧ rest.takeWhile (· != '/') ≠ [] then
      lbrace :: (rest.takeWhile (· != '/') ++
        rbrace :: replaceParams (rest.dropWhile (· != '/')))
    else c :: replaceParams rest
termination_by l => l.length
decreasing_by
  · exact Nat.lt_succ_of_le (List.Sublist.length_le (List.dropWhile_sublist _))
  · exact Nat.lt_succ_self _

/-- The `paths` key for one route in `generateOpenAPISpec`. -/
def pathKeyOf (routePath : List Char) : List Char :=
  let k := replaceParams routePath
  if k = ['/'] then [] else k

/-- The public path assembled by `generateSpec`:
`basePath + routePrefix + normalizedPath`. -/
def publicPathOf (basePath routePfx routePath : List Char) : List Char :=
  let p := pathKeyOf routePath
  let normalized := if p = ['/'] then [] else p
  basePath ++ routePfx ++ normalized

/-- The transformation as worded by the spec, per path segment: a segment
`:seg` (nonempty `seg`) becomes `\x7bseg\x7d`; every other segment is
unchanged.  Stated from the spec's words, to be compared with
`replaceParams`. -/
def specSegTransform (seg : List Char) : List Char :=
  match seg with
  | ':' :: s => if s = [] then ':' :: s else lbrace :: (s ++ [rbrace])
  | seg => seg

/-- Well-formed path segment: no `/`, and either a named segment `:seg`
with nonempty `seg` or a segment without `:` (the `:name` segment syntax
the spec's invariant assumes). -/
def wfSegB (seg : List Char) : Bool :=
  seg.all (· != '/') &&
    (if seg.head? = some ':' then !seg.tail.isEmpty
     else seg.all (· != ':'))

/-- Join segments with `/` separators (inverse of splitting a path). -/
def joinSlash : List (List Char) → List Char
  | [] => []
  | [seg] => seg
  | seg :: rest => seg ++ '/' :: joinSlash rest

/-! ## Rate limiting (utility.decorator.ts, `createRateLimitMiddleware`)

The process-wide `rateLimitStore` is keyed by a caller string; all claims
fix one key, so the state is that key's slot (`none` = no entry). -/

/-- One `rateLimitStore` slot: `{count, resetTime}` (epoch millis). -/
structure RateLimitEntry where
  count : Int
  resetTime : Int
  deriving DecidableEq

/-- Outcome of one request through the rate-limit middleware: the slot
after the request, the three `X-RateLimit-*` header values, and whether the
request was short-circuited with 429 (`blocked`) instead of calling
`next()`. -/
structure RateLimitResult where
  entry : RateLimitEntry
  limitHeader : Int
  remainingHeader : Int
  resetHeader : Int
  blocked : Bool
  deriving DecidableEq

/-- One request at time `now` against the slot `st`: stale cleanup
(`resetTime < now - windowMs`), create-or-increment, headers, threshold
check (`count > maxRequests` short-circuits with 429).  `resetHeader` is
`Math.ceil(resetTime / 1000)` for the nonnegative epoch times that occur. -/
def rateLimitStep (windowMs maxRequests : Int) (st : Option RateLimitEntry)
    (now : Int) : RateLimitResult :=
  let windowStart := now - windowMs
  let cleaned : Option RateLimitEntry :=
    match st with
    | some e => if e.resetTime < windowStart then none else some e
    | none => none
  let current : RateLimitEntry :=
    match cleaned with
    | none => { count := 1, resetTime := now + windowMs }
    | some e => { count := e.count + 1, resetTime := e.resetTime }
  { entry := current
    limitHeader := maxRequests
    remainingHeader := max 0 (maxRequests - current.count)
    resetHeader := (current.resetTime + 999) / 1000
    blocked := decide (current.count > maxRequests) }

/-! ## Response caching (utility.decorator.ts, `createCacheMiddleware`)

The process-wide `cache` map is keyed by `"METHOD:url"`; all claims fix one
key, so the state is that key's slot.  A request is summarized by the
status code and payload its terminal handler passes to `res.json`. -/

/-- One `cache` slot: `{data, expiresAt}`. -/
structure CacheEntry (D : Type) where
  data : D
  expiresAt : Int
  deriving DecidableEq

/-- The `X-Cache` header value set by the middleware. -/
inductive CacheMark where
  | hit
  | miss
  deriving DecidableEq

/-- The miss path: the overridden `res.json` stores the payload when the
optional condition passes and the status is 2xx, marks `MISS`, and forwards
the payload. -/
def cacheMissStep {D : Type} (ttl : Int) (cond : Option (Nat → Bool))
    (st : Option (CacheEntry D)) (now : Int) (status : Nat) (payload : D) :
    Option (CacheEntry D) × CacheMark × D :=
  let shouldStore :=
    (match cond with
     | none => true
     | some p => p status) &&
    decide (200 ≤ status) && decide (status < 300)
  ((if shouldStore then some { data := payload, expiresAt := now + ttl } else st),
    CacheMark.miss, payload)

/-- One request at time `now` against the slot `st`: a fresh entry
(`expiresAt > now`) short-circuits with the stored payload marked `HIT`;
otherwise the handler runs and the miss path applies. -/
def cacheStep {D : Type} (ttl : Int) (cond : Option (Nat → Bool))
    (st : Option (CacheEntry D)) (now : Int) (status : Nat) (payload : D) :
    Option (CacheEntry D) × CacheMark × D :=
  match st with
  | some e =>
    if now < e.expiresAt then (some e, CacheMark.hit, e.data)
    else cacheMissStep ttl cond st now status payload
  | none => cacheMissStep ttl cond st now status payload

/-! ## Cross-cutting decorator shape (utility.decorator.ts)

`RateLimit`, `Cache`, `LogRequest` and `Monitor` all transform
`descriptor.value` the same way: a plain function `f` becomes
`[middleware, f]`; an array keeps its last element as terminal handler and
receives the new middleware just before it. -/

/-- `descriptor.value`: a plain method or an already-built chain. -/
inductive DecoValue (H : Type) where
  | plain (f : H)
  | chain (fs : List H)
  deriving DecidableEq

/-- One application of a cross-cutting decorator with middleware `mw`.
On an empty array the source would produce `[mw, undefined]`; that case
never arises (every decorator emits a chain of length at least two). -/
def applyCrossCutting {H : Type} (mw : H) : DecoValue H → DecoValue H
  | DecoValue.plain f => DecoValue.chain [mw, f]
  | DecoValue.chain fs =>
    match fs.getLast? with
    | some last => DecoValue.chain (fs.dropLast ++ [mw, last])
    | none => DecoValue.chain [mw]

/-! ## Router construction (controllerRegistry.ts, `createRouter`) -/

/-- One route registered on the Express router: verb, `basePath + path`,
and the handler chain `[...middlewares, handler]` (middleware part and
terminal handler kept separate). -/
structure RouterEntry (H : Type) where
  verb : String
  fullPath : List Char
  middlewares : List H
  handler : Option H
  deriving DecidableEq

/-- The verbs handled by the `switch`; anything else falls to the warning
branch and is not mounted. -/
def isSupportedVerb (m : String) : Bool :=
  match m with
  | "get" => true
  | "post" => true
  | "put" => true
  | "patch" => true
  | "delete" => true
  | _ => false

/-- The mounting loop over a controller's routes, in registration order. -/
def mountRoutes {H J : Type} (basePath : List Char) :
    List (RouteMetadata H J) → List (RouterEntry H)
  | [] => []
  | r :: rest =>
    (if isSupportedVerb r.method then
      [{ verb := r.method
         fullPath := basePath ++ r.path
         middlewares := r.middlewares
         handler := r.handler }]
     else []) ++ mountRoutes basePath rest

/-- `createRouter(controllerName, basePath)`: throws when the controller is
absent, otherwise mounts the controller's routes. -/
def createRouter {H J : Type} (name : String) (basePath : List Char)
    (st : RegState (ControllerMetadata H J)) :
    Except String (List (RouterEntry H)) :=
  match mapGet name st with
  | none => Except.error ("Controller " ++ name ++ " not found in registry")
  | some c => Except.ok (mountRoutes basePath c.routes)

/-! ## Route-mapping strategies (openapiGenerator.ts) -/

/-- JS `String.endsWith`, computed on the character lists (the built-in
`String.endsWith` does not reduce inside the kernel). -/
def endsWithStr (s pat : String) : Bool :=
  pat.data.isSuffixOf s.data

/-- `RouteMapping` (`routePfx` is the source's `routePrefix` field). -/
structure RouteMapping where
  controllerName : String
  routePfx : String
  deriving DecidableEq

/-- JS `String.replace` with a string pattern: remove/replace only the
first occurrence (here always used with an empty replacement). -/
def replaceOnce (pat : List Char) : List Char → List Char
  | [] => []
  | c :: rest =>
    if pat.isPrefixOf (c :: rest) then (c :: rest).drop pat.length
    else c :: replaceOnce pat rest

/-- `generateDynamicRouteMappings`'s entity derivation:
`controllerName.replace("Controller", "").toLowerCase()`. -/
def deriveEntityName (name : String) : String :=
  String.mk ((replaceOnce "Controller".data name.data).map Char.toLower)

/-- Route-prefix pluralization used by both discovery strategies:
append `s` unless the entity name already ends in `s`. -/
def pluralizePfx (entity : String) : String :=
  "/" ++ entity ++ (if endsWithStr entity "s" then "" else "s")

/-- The registry-derived fallback: one mapping per registered controller,
in registration order. -/
def generateDynamicRouteMappings {M : Type} (st : RegState M) :
    List RouteMapping :=
  st.map (fun p =>
    { controllerName := p.1, routePfx := pluralizePfx (deriveEntityName p.1) })

/-- The fallback derivation as the spec words it: strip a trailing
`"Controller"` suffix, lowercase, pluralize.  Stated from the spec's words,
to be compared with `deriveEntityName`. -/
def deriveEntityNameSpec (name : String) : String :=
  let stripped :=
    if endsWithStr name "Controller" then name.data.take (name.data.length - 10)
    else name.data
  String.mk (stripped.map Char.toLower)

/-- The filesystem and module system seen by `autoDiscoverControllers`:
whether the directory exists, its file listing, and for each file either
the controller registrations its import performs or `none` when the import
throws. -/
structure DiscoveryEnv (M : Type) where
  dirExists : Bool
  files : List String
  importOutcome : String → Option (List (String × M))

/-- The controller-file filter: `*.controller.js` or `*.controller.ts`. -/
def isControllerFile (f : String) : Bool :=
  endsWithStr f ".controller.js" || endsWithStr f ".controller.ts"

/-- `path.basename(file, path.extname(file))`: drop the last-dot extension
(files reaching this point have one). -/
def stripExtension (s : List Char) : List Char :=
  match s.reverse.dropWhile (· != '.') with
  | [] => s
  | _ :: beforeRev => beforeRev.reverse

/-- `baseName.replace(".controller", "")`. -/
def fileEntityName (f : String) : String :=
  String.mk (replaceOnce ".controller".data (stripExtension f.data))

/-- `entityName.charAt(0).toUpperCase() + entityName.slice(1)`. -/
def capitalizeFirst : List Char → List Char
  | [] => []
  | c :: r => c.toUpper :: r

/-- The controller name derived from a file name:
`"user.controller.ts"` becomes `"UserController"`. -/
def fileControllerName (f : String) : String :=
  String.mk (capitalizeFirst (fileEntityName f).data) ++ "Controller"

/-- The `{controllerName, routePrefix}` record pushed for one file. -/
def mappingOfFile (f : String) : RouteMapping :=
  { controllerName := fileControllerName f
    routePfx := pluralizePfx (fileEntityName f) }

/-- The registry effect of importing one controller file: its top-level
`Controller` decorators register their metadata. -/
def registerImports {M : Type} (regs : List (String × M)) (st : RegState M) :
    RegState M :=
  regs.foldl (fun s p => mapSet p.1 p.2 s) st

/-- The per-file loop of `autoDiscoverControllers`: push the mapping, then
attempt the dynamic import; a throwing import is caught (logged) and the
loop continues. -/
def discoverLoop {M : Type} (env : DiscoveryEnv M) :
    List String → List RouteMapping × RegState M →
    List RouteMapping × RegState M
  | [], acc => acc
  | f :: rest, acc =>
    let withMapping := (acc.1 ++ [mappingOfFile f], acc.2)
    let afterImport :=
      match env.importOutcome f with
      | none => withMapping
      | some regs => (withMapping.1, registerImports regs withMapping.2)
    discoverLoop env rest afterImport

/-- `autoDiscoverControllers(controllersDir)`: empty result when the
directory is missing, otherwise the loop over the filtered file listing. -/
def autoDiscoverControllers {M : Type} (env : DiscoveryEnv M)
    (st : RegState M) : List RouteMapping × RegState M :=
  if env.dirExists then
    discoverLoop env (env.files.filter isControllerFile) ([], st)
  else ([], st)

/-- `OpenAPIGenerator.initialize(routesDir?, customMappings?,
controllersDir?)`: strategy selection with the precedence of the source's
if/else chain.  The routes-directory scan (regex parsing of an index file)
is abstracted by `scanRoutesDir`; only which strategy is chosen matters
here. -/
def initRouteMappings {M RD : Type} (scanRoutesDir : RD → List RouteMapping)
    (routesDir : Option RD) (customMappings : Option (List RouteMapping))
    (controllersDir : Option (DiscoveryEnv M)) (st : RegState M) :
    List RouteMapping × RegState M :=
  match customMappings with
  | some ms => (ms, st)
  | none =>
    match controllersDir with
    | some env => autoDiscoverControllers env st
    | none =>
      match routesDir with
      | some rd => (scanRoutesDir rd, st)
      | none => (generateDynamicRouteMappings st, st)

/-! ## Concrete instances used by witnesses -/

/-- A two-route controller: one supported verb, one unrecognized verb. -/
def sampleControllerMeta : ControllerMetadata Unit Unit :=
  { methods := []
    routes :=
      [ { method := "get", path := ['/'], handler := some (), middlewares := [] }
      , { method := "propfind", path := ['/'], handler := some (), middlewares := [] } ] }

/-- A controllers directory with one throwing and one loadable controller
file plus a non-controller file. -/
def sampleDiscoveryEnv : DiscoveryEnv Unit :=
  { dirExists := true
    files := ["bad.controller.ts", "user.controller.ts", "notes.txt"]
    importOutcome := fun f =>
      if f = "bad.controller.ts" then none
      else some [(fileControllerName f, ())] }

/-- A controllers directory whose single controller file throws on load. -/
def failingDiscoveryEnv : DiscoveryEnv Unit :=
  { dirExists := true
    files := ["user.controller.ts"]
    importOutcome := fun _ => none }

/-! ## Helper lemmas -/

theorem mapGet_mapSet {M : Type} (k k' : String) (v : M) (st : RegState M) :
    mapGet k' (mapSet k v st) = if k' = k then some v else mapGet k' st := by
  induction st with
  | nil =>
    by_cases h : k' = k
    · subst h; simp [mapGet, mapSet]
    · simp [mapGet, mapSet, h, Ne.symm h]
  | cons p rest ih =>
    obtain ⟨k1, v1⟩ := p
    by_cases h1 : k1 = k
    · subst h1
      by_cases h2 : k' = k1
      · subst h2; simp [mapGet, mapSet]
      · simp [mapGet, mapSet, h2, Ne.symm h2]
    · by_cases h2 : k1 = k'
      · subst h2
        simp [mapGet, mapSet, h1, Ne.symm h1]
      · simp [mapGet, mapSet, h1, h2, ih]

theorem applyCrossCutting_concat {H : Type} (mw : H) (pre : List H) (f : H) :
    applyCrossCutting mw (DecoValue.chain (pre ++ [f]))
      = DecoValue.chain (pre ++ [mw] ++ [f]) := by
  simp [applyCrossCutting, List.getLast?_concat, List.dropLast_concat]

theorem foldl_applyCrossCutting_chain {H : Type} (f : H) (ms : List H) :
    ∀ pre : List H,
      List.foldl (fun v m => applyCrossCutting m v)
          (DecoValue.chain (pre ++ [f])) ms
        = DecoValue.chain (pre ++ ms ++ [f]) := by
  induction ms with
  | nil => intro pre; simp
  | cons m ms ih =>
    intro pre
    have h := applyCrossCutting_concat m pre f
    calc List.foldl (fun v m => applyCrossCutting m v)
            (DecoValue.chain (pre ++ [f])) (m :: ms)
        = List.foldl (fun v m => applyCrossCutting m v)
            (DecoValue.chain ((pre ++ [m]) ++ [f])) ms := by
          simp [List.foldl_cons, h]
      _ = DecoValue.chain ((pre ++ [m]) ++ ms ++ [f]) := ih (pre ++ [m])
      _ = DecoValue.chain (pre ++ m :: ms ++ [f]) := by simp

/-! ## Path-normalization lemmas -/

theorem takeWhile_all_ne {s : List Char} (h : ∀ c ∈ s, (c != '/') = true) :
    s.takeWhile (· != '/') = s ∧ s.dropWhile (· != '/') = [] := by
  induction s with
  | nil => simp
  | cons c rest ih =>
    have hc := h c (by simp)
    have ih' := ih (fun d hd => h d (by simp [hd]))
    simp [List.takeWhile_cons, List.dropWhile_cons, hc, ih'.1, ih'.2]

theorem takeWhile_append_slash {s : List Char} (u : List Char)
    (h : ∀ c ∈ s, (c != '/') = true) :
    (s ++ '/' :: u).takeWhile (· != '/') = s
    ∧ (s ++ '/' :: u).dropWhile (· != '/') = '/' :: u := by
  induction s with
  | nil => simp [List.takeWhile_cons, List.dropWhile_cons]
  | cons c rest ih =>
    have hc := h c (by simp)
    have ih' := ih (fun d hd => h d (by simp [hd]))
    simp [List.takeWhile_cons, List.dropWhile_cons, hc, ih'.1, ih'.2]

theorem replaceParams_nil : replaceParams [] = [] := by
  simp [replaceParams]

theorem replaceParams_cons_ne_colon {c : Char} (rest : List Char)
    (h : ¬ c = ':') :
    replaceParams (c :: rest) = c :: replaceParams rest := by
  simp [replaceParams, h]

theorem replaceParams_cons_eq (c : Char) (rest : List Char) :
    replaceParams (c :: rest)
      = if c = ':' ∧ rest.takeWhile (· != '/') ≠ [] then
          lbrace :: (rest.takeWhile (· != '/') ++
            rbrace :: replaceParams (rest.dropWhile (· != '/')))
        else c :: replaceParams rest := by
  simp only [replaceParams]

theorem replaceParams_colon_append {s : List Char} (u : List Char)
    (hs : s ≠ []) (h : ∀ c ∈ s, (c != '/') = true) :
    replaceParams (':' :: (s ++ '/' :: u))
      = lbrace :: (s ++ rbrace :: replaceParams ('/' :: u)) := by
  have ht := takeWhile_append_slash (s := s) u h
  simp [replaceParams, ht.1, ht.2, hs]

theorem replaceParams_colon_all {s : List Char}
    (hs : s ≠ []) (h : ∀ c ∈ s, (c != '/') = true) :
    replaceParams (':' :: s) = lbrace :: (s ++ [rbrace]) := by
  have ht := takeWhile_all_ne (s := s) h
  simp [replaceParams, ht.1, ht.2, hs, replaceParams_nil]

theorem replaceParams_append_no_colon {s : List Char} (t : List Char)
    (h : ∀ c ∈ s, ¬ c = ':') :
    replaceParams (s ++ t) = s ++ replaceParams t := by
  induction s with
  | nil => simp
  | cons c rest ih =>
    have hc := h c (by simp)
    have ih' := ih (fun d hd => h d (by simp [hd]))
    simp only [List.cons_append]
    rw [replaceParams_cons_ne_colon _ hc, ih']

theorem wfSeg_all_ne_slash {seg : List Char} (h : wfSegB seg = true) :
    ∀ c ∈ seg, (c != '/') = true := by
  simp only [wfSegB, Bool.and_eq_true] at h
  exact List.all_eq_true.1 h.1

theorem wfSeg_colon_tail_ne {s : List Char}
    (h : wfSegB (':' :: s) = true) : s ≠ [] := by
  simp only [wfSegB, List.head?_cons, List.tail_cons, Bool.and_eq_true,
    if_pos rfl] at h
  intro hs
  subst hs
  simp at h

theorem wfSeg_ne_colon {c : Char} {s : List Char}
    (h : wfSegB (c :: s) = true) (hc : ¬ c = ':') :
    ∀ d ∈ c :: s, ¬ d = ':' := by
  simp only [wfSegB, List.head?_cons, Bool.and_eq_true] at h
  rw [if_neg (by simp [hc])] at h
  intro d hd
  have hx := List.all_eq_true.1 h.2 d hd
  simpa using hx

theorem specSegTransform_of_ne_colon {c : Char} (s : List Char)
    (hc : ¬ c = ':') : specSegTransform (c :: s) = c :: s := by
  unfold specSegTransform
  split
  · next heq => injection heq with h1 _; exact absurd h1 hc
  · rfl

theorem replaceParams_wf_seg {seg : List Char} (h : wfSegB seg = true) :
    replaceParams seg = specSegTransform seg := by
  rcases seg with _ | ⟨c, s⟩
  · simp [replaceParams_nil, specSegTransform]
  · by_cases hc : c = ':'
    · subst hc
      have hs : s ≠ [] := wfSeg_colon_tail_ne h
      have hall : ∀ d ∈ s, (d != '/') = true := fun d hd =>
        wfSeg_all_ne_slash h d (by simp [hd])
      rw [replaceParams_colon_all hs hall]
      simp [specSegTransform, hs]
    · have hnc := wfSeg_ne_colon h hc
      have hx := replaceParams_append_no_colon (s := c :: s) [] hnc
      simp only [List.append_nil, replaceParams_nil] at hx
      rw [hx, specSegTransform_of_ne_colon s hc]

theorem replaceParams_wfSeg_append {seg : List Char} (u : List Char)
    (h : wfSegB seg = true) :
    replaceParams (seg ++ '/' :: u)
      = specSegTransform seg ++ '/' :: replaceParams u := by
  rcases seg with _ | ⟨c, s⟩
  · simp [specSegTransform,
      replaceParams_cons_ne_colon _ (by decide : ¬ '/' = ':')]
  · by_cases hc : c = ':'
    · subst hc
      have hs : s ≠ [] := wfSeg_colon_tail_ne h
      have hall : ∀ d ∈ s, (d != '/') = true := fun d hd =>
        wfSeg_all_ne_slash h d (by simp [hd])
      rw [List.cons_append, replaceParams_colon_append u hs hall,
        replaceParams_cons_ne_colon _ (by decide : ¬ '/' = ':')]
      simp [specSegTransform, hs]
    · have hnc := wfSeg_ne_colon h hc
      rw [replaceParams_append_no_colon ('/' :: u) hnc,
        replaceParams_cons_ne_colon _ (by decide : ¬ '/' = ':'),
        specSegTransform_of_ne_colon s hc]

theorem replaceParams_ne_nil (c : Char) (rest : List Char) :
    replaceParams (c :: rest) ≠ [] := by
  rw [replaceParams_cons_eq]
  by_cases hcond : c = ':' ∧ rest.takeWhile (· != '/') ≠ []
  · rw [if_pos hcond]; simp
  · rw [if_neg hcond]; simp

theorem replaceParams_eq_slash {l : List Char}
    (h : replaceParams l = ['/']) : l = ['/'] := by
  rcases l with _ | ⟨c, rest⟩
  · simp [replaceParams_nil] at h
  · rw [replaceParams_cons_eq] at h
    by_cases hcond : c = ':' ∧ rest.takeWhile (· != '/') ≠ []
    · rw [if_pos hcond, List.cons.injEq] at h
      exact absurd h.1 (by decide)
    · rw [if_neg hcond, List.cons.injEq] at h
      rcases rest with _ | ⟨d, r⟩
      · simp [h.1]
      · exact absurd h.2 (replaceParams_ne_nil d r)

theorem replaceParams_joinSlash {segs : List (List Char)}
    (hwf : ∀ seg ∈ segs, wfSegB seg = true) :
    replaceParams (joinSlash segs) = joinSlash (segs.map specSegTransform) := by
  induction segs with
  | nil => simp [joinSlash, replaceParams_nil]
  | cons seg rest ih =>
    rcases rest with _ | ⟨b, rest2⟩
    · simpa [joinSlash] using replaceParams_wf_seg (hwf seg (by simp))
    · have h1 := hwf seg (by simp)
      have h2 : ∀ s ∈ b :: rest2, wfSegB s = true := fun s hs =>
        hwf s (by simp [hs])
      have ih' := ih h2
      show replaceParams (seg ++ '/' :: joinSlash (b :: rest2))
          = specSegTransform seg
            ++ '/' :: joinSlash ((b :: rest2).map specSegTransform)
      rw [replaceParams_wfSeg_append (joinSlash (b :: rest2)) h1, ih']

/-! ## Claim theorems -/

/-- C8: controller names are unique registry keys with last-registration-
wins overwrite semantics: after `register(k, v)`, `get(k)` returns `v`
whatever was stored before, `get` at any other key is unaffected, and the
read operations (`get`, `getAllControllers`) leave the registry state
unchanged — `register` is the sole mutation point. -/
theorem registry_register_upsert_sole_mutation {M : Type} (st : RegState M)
    (k k' : String) (v : M) :
    (regGet k (regRegister k v st)).1 = some v
    ∧ (regGet k' (regRegister k v st)).1
        = (if k' = k then some v else (regGet k' st).1)
    ∧ (regGet k' st).2 = st
    ∧ (regGetAll st).2 = st := by
  refine ⟨?_, ?_, rfl, rfl⟩
  · simp [regGet, regRegister, mapGet_mapSet]
  · simp [regGet, regRegister, mapGet_mapSet]

/-- C5: each cross-cutting decorator application turns the method value
into `[...middlewares, terminalHandler]`, inserting the new middleware
immediately before the terminal handler and after all previously inserted
middlewares; consequently a sequence of applications yields the middlewares
in application order, first-applied first, in front of the terminal
handler. -/
theorem crossCutting_chain_order {H : Type} (f mw : H) (mws : List H) :
    (∀ pre : List H,
      applyCrossCutting mw (DecoValue.chain (pre ++ [f]))
        = DecoValue.chain (pre ++ [mw] ++ [f]))
    ∧ List.foldl (fun v m => applyCrossCutting m v)
          (DecoValue.plain f) (mw :: mws)
        = DecoValue.chain ((mw :: mws) ++ [f]) := by
  constructor
  · intro pre; exact applyCrossCutting_concat mw pre f
  · have h0 : applyCrossCutting mw (DecoValue.plain f)
        = DecoValue.chain ([mw] ++ [f]) := rfl
    calc List.foldl (fun v m => applyCrossCutting m v)
            (DecoValue.plain f) (mw :: mws)
        = List.foldl (fun v m => applyCrossCutting m v)
            (DecoValue.chain ([mw] ++ [f])) mws := by
          simp [List.foldl_cons, h0]
      _ = DecoValue.chain ([mw] ++ mws ++ [f]) :=
          foldl_applyCrossCutting_chain f mws [mw]
      _ = DecoValue.chain ((mw :: mws) ++ [f]) := by simp

/-- C3 (divergence): with `maxRequests = 3` the first three requests of a
window pass and the fourth is short-circuited with 429 — but a request
issued after the stored entry's `resetTime` does NOT reset the counter to 1:
with `windowMs = 10` and the entry `{count: 3, resetTime: 20}`, the request
at `now = 21 > resetTime` keeps the entry (the cleanup test is
`resetTime < now - windowMs`), increments the count to 4 and is blocked;
the counter is only discarded once `now > resetTime + windowMs`
(here `now = 31`). -/
theorem rateLimit_reset_divergence :
    (rateLimitStep 1000 3 none 0
      = { entry := { count := 1, resetTime := 1000 }, limitHeader := 3,
          remainingHeader := 2, resetHeader := 1, blocked := false })
    ∧ (rateLimitStep 1000 3 (some { count := 1, resetTime := 1000 }) 1).blocked = false
    ∧ (rateLimitStep 1000 3 (some { count := 1, resetTime := 1000 }) 1).entry.count = 2
    ∧ (rateLimitStep 1000 3 (some { count := 2, resetTime := 1000 }) 2).blocked = false
    ∧ (rateLimitStep 1000 3 (some { count := 3, resetTime := 1000 }) 3).blocked = true
    ∧ ((21 : Int) > 20
       ∧ rateLimitStep 10 3 (some { count := 3, resetTime := 20 }) 21
          = { entry := { count := 4, resetTime := 20 }, limitHeader := 3,
              remainingHeader := 0, resetHeader := 1, blocked := true })
    ∧ (rateLimitStep 10 3 (some { count := 3, resetTime := 20 }) 31).entry
        = { count := 1, resetTime := 41 } := by
  decide

/-- C4: on a cached route with time-to-live `ttl`, a first request at `t1`
whose handler answers a 2xx payload `d1` stores `d1` with expiry
`t1 + ttl` and is marked MISS; a second request before the ttl elapses
(`t2 < t1 + ttl`) short-circuits with the identical stored payload marked
HIT and leaves the entry unchanged; a request after the ttl has elapsed
(`t1 + ttl ≤ t3`) is a MISS again and its 2xx payload `d3` overwrites the
entry. -/
theorem cache_miss_hit_expiry {D : Type} (ttl t1 t2 t3 : Int)
    (s1 s2 s3 : Nat) (d1 d2 d3 : D)
    (h1 : 200 ≤ s1) (h1' : s1 < 300)
    (h2 : t2 < t1 + ttl) (h3 : t1 + ttl ≤ t3)
    (h4 : 200 ≤ s3) (h4' : s3 < 300) :
    cacheStep ttl none none t1 s1 d1
      = (some { data := d1, expiresAt := t1 + ttl }, CacheMark.miss, d1)
    ∧ cacheStep ttl none (some { data := d1, expiresAt := t1 + ttl }) t2 s2 d2
      = (some { data := d1, expiresAt := t1 + ttl }, CacheMark.hit, d1)
    ∧ cacheStep ttl none (some { data := d1, expiresAt := t1 + ttl }) t3 s3 d3
      = (some { data := d3, expiresAt := t3 + ttl }, CacheMark.miss, d3) := by
  refine ⟨?_, ?_, ?_⟩
  · simp [cacheStep, cacheMissStep, h1, h1']
  · simp [cacheStep, h2]
  · simp [cacheStep, cacheMissStep, not_lt.2 h3, h4, h4']

/-- Witness for `cache_miss_hit_expiry` at `ttl = 100`, request times
`0, 50, 100`, status 200, payloads `1, 2, 3`. -/
theorem cache_miss_hit_expiry_witness :
    ((200 ≤ 200 ∧ 200 < 300) ∧ (50 : Int) < 0 + 100 ∧ (0 : Int) + 100 ≤ 100)
    ∧ (cacheStep 100 none none 0 200 (1 : Nat)
        = (some { data := 1, expiresAt := 100 }, CacheMark.miss, 1)
       ∧ cacheStep 100 none (some { data := 1, expiresAt := 0 + 100 }) 50 200 (2 : Nat)
        = (some { data := 1, expiresAt := 0 + 100 }, CacheMark.hit, 1)
       ∧ cacheStep 100 none (some { data := 1, expiresAt := 0 + 100 }) 100 200 (3 : Nat)
        = (some { data := 3, expiresAt := 100 + 100 }, CacheMark.miss, 3)) := by
  refine ⟨by decide, ?_⟩
  have h := cache_miss_hit_expiry (D := Nat) 100 0 50 100 200 200 200 1 2 3
    (by decide) (by decide) (by decide) (by decide) (by decide) (by decide)
  simpa using h

theorem mountRoutes_filterMap {H J : Type} (basePath : List Char)
    (routes : List (RouteMetadata H J)) :
    mountRoutes basePath routes = routes.filterMap (fun r =>
      if isSupportedVerb r.method then
        some { verb := r.method, fullPath := basePath ++ r.path,
               middlewares := r.middlewares, handler := r.handler }
      else none) := by
  induction routes with
  | nil => rfl
  | cons r rest ih =>
    by_cases h : isSupportedVerb r.method <;>
      simp [mountRoutes, h, ih, List.filterMap_cons]

theorem buildMembers_routes {H J : Type} (catchA bindInst : H → H)
    (routeTable : String → Option (RouteInfo J))
    (l : List (String × PropValue H)) :
    (buildMembers catchA bindInst routeTable l).2
      = l.filterMap (fun p => (routeTable p.1).map (fun ri =>
          routeOfInfo ri (boundHandlerOf catchA bindInst p.2)
            (middlewaresOf p.2))) := by
  induction l with
  | nil => rfl
  | cons p rest ih =>
    obtain ⟨nm, pv⟩ := p
    cases h : routeTable nm <;>
      simp [buildMembers, h, ih, List.filterMap_cons]

theorem discoverLoop_mappings {M : Type} (env : DiscoveryEnv M)
    (files : List String) :
    ∀ acc : List RouteMapping × RegState M,
      (discoverLoop env files acc).1 = acc.1 ++ files.map mappingOfFile := by
  induction files with
  | nil => intro acc; simp [discoverLoop]
  | cons f rest ih =>
    intro acc
    cases h : env.importOutcome f <;>
      simp [discoverLoop, h, ih]

theorem autoDiscover_mappings {M : Type} (env : DiscoveryEnv M)
    (st : RegState M) (h : env.dirExists = true) :
    (autoDiscoverControllers env st).1
      = (env.files.filter isControllerFile).map mappingOfFile := by
  simp [autoDiscoverControllers, h, discoverLoop_mappings]

/-! ## Claim theorems -/

/-- C6: `createRouter(controllerName, basePath)` throws a controller-not-
found error and mounts no routes when the name is absent from the registry;
for a present controller, exactly the routes whose verb is one of
`get/post/put/patch/delete` are mounted (with `basePath + path` and the
middleware chain followed by the terminal handler), and a route with any
other verb is only warned about and skipped. -/
theorem createRouter_notFound_unknownVerb {H J : Type} (name : String)
    (basePath : List Char) (st : RegState (ControllerMetadata H J)) :
    (mapGet name st = none →
      createRouter name basePath st
        = Except.error ("Controller " ++ name ++ " not found in registry"))
    ∧ (∀ c : ControllerMetadata H J, mapGet name st = some c →
        createRouter name basePath st
          = Except.ok (c.routes.filterMap (fun r =>
              if isSupportedVerb r.method then
                some { verb := r.method, fullPath := basePath ++ r.path,
                       middlewares := r.middlewares, handler := r.handler }
              else none))) := by
  constructor
  · intro h; simp [createRouter, h]
  · intro c h; simp [createRouter, h, mountRoutes_filterMap]

/-- Witness for `createRouter_notFound_unknownVerb`: an empty registry
rejects `"Nope"`; a registry holding one controller with a `get` route and
a `propfind` route mounts only the `get` route. -/
theorem createRouter_notFound_unknownVerb_witness :
    (mapGet "Nope" ([] : RegState (ControllerMetadata Unit Unit)) = none
     ∧ mapGet "A" [("A", sampleControllerMeta)] = some sampleControllerMeta)
    ∧ createRouter "Nope" [] ([] : RegState (ControllerMetadata Unit Unit))
        = Except.error ("Controller " ++ "Nope" ++ " not found in registry")
    ∧ createRouter "A" "/b".data [("A", sampleControllerMeta)]
        = Except.ok
            [{ verb := "get", fullPath := "/b".data ++ ['/'],
               middlewares := [], handler := some () }] := by
  refine ⟨⟨rfl, by decide⟩, ?_, ?_⟩
  · exact (createRouter_notFound_unknownVerb "Nope" [] []).1 rfl
  · rw [(createRouter_notFound_unknownVerb "A" "/b".data
      [("A", sampleControllerMeta)]).2 sampleControllerMeta (by decide)]
    refine congrArg Except.ok ?_
    decide

/-- C1: registering a class through the `Controller` decorator stores, and
`getControllerRoutes(name)` returns, exactly one `RouteMetadata` for each
enumerated own non-constructor method whose name carries a `RouteInfo` in
the side-table, none for methods that carry no `RouteInfo`, in the
method-enumeration order of the class. -/
theorem controller_routes_exactly_annotated {H J : Type}
    (catchA bindInst : H → H) (name : String)
    (proto : List (String × PropValue H))
    (routeTable : String → Option (RouteInfo J))
    (st : RegState (ControllerMetadata H J)) :
    getControllerRoutes name
        (controllerDecoratorRun catchA bindInst name proto routeTable st)
      = some ((proto.filter isEnumeratedMethod).filterMap (fun p =>
          (routeTable p.1).map (fun ri =>
            routeOfInfo ri (boundHandlerOf catchA bindInst p.2)
              (middlewaresOf p.2)))) := by
  simp [getControllerRoutes, controllerDecoratorRun, regRegister,
    mapGet_mapSet, decorateController, buildMembers_routes]

/-- C9: when the directory exists, every controller-named file in it
contributes its route mapping to the result of `autoDiscoverControllers`,
even when some other file's dynamic import throws (the failure is caught
per-file and never aborts discovery of the remaining files). -/
theorem autoDiscover_survives_import_failure {M : Type}
    (env : DiscoveryEnv M) (st : RegState M) (f g : String)
    (hdir : env.dirExists = true)
    (_hg : env.importOutcome g = none) (_hfg : f ≠ g)
    (hf : f ∈ env.files) (hc : isControllerFile f = true) :
    mappingOfFile f ∈ (autoDiscoverControllers env st).1 := by
  rw [autoDiscover_mappings env st hdir]
  exact List.mem_map_of_mem _ (List.mem_filter.2 ⟨hf, hc⟩)

/-- Witness for `autoDiscover_survives_import_failure`: in a directory
where `bad.controller.ts` throws on import, `user.controller.ts` still
contributes its mapping. -/
theorem autoDiscover_survives_import_failure_witness :
    (sampleDiscoveryEnv.dirExists = true
     ∧ sampleDiscoveryEnv.importOutcome "bad.controller.ts" = none
     ∧ "user.controller.ts" ≠ "bad.controller.ts"
     ∧ "user.controller.ts" ∈ sampleDiscoveryEnv.files
     ∧ isControllerFile "user.controller.ts" = true)
    ∧ mappingOfFile "user.controller.ts"
        ∈ (autoDiscoverControllers sampleDiscoveryEnv ([] : RegState Unit)).1 := by
  refine ⟨⟨rfl, by decide, by decide, by decide, by decide⟩, ?_⟩
  exact autoDiscover_survives_import_failure sampleDiscoveryEnv []
    "user.controller.ts" "bad.controller.ts" rfl (by decide) (by decide)
    (by decide) (by decide)

/-- C10: the `{controllerName, routePrefix}` record of a controller file is
pushed before its dynamic import is attempted, so the returned mappings are
exactly the filtered file listing's mappings regardless of import outcomes;
in particular a file whose import throws still contributes its mapping, and
that mapping can name a controller that was never registered. -/
theorem autoDiscover_mapping_precedes_import {M : Type}
    (env : DiscoveryEnv M) (st : RegState M) (hdir : env.dirExists = true) :
    (autoDiscoverControllers env st).1
        = (env.files.filter isControllerFile).map mappingOfFile
    ∧ (autoDiscoverControllers failingDiscoveryEnv ([] : RegState Unit)).1
        = [mappingOfFile "user.controller.ts"]
    ∧ mapGet (mappingOfFile "user.controller.ts").controllerName
        (autoDiscoverControllers failingDiscoveryEnv ([] : RegState Unit)).2
      = none := by
  exact ⟨autoDiscover_mappings env st hdir, by decide, by decide⟩

/-- Witness for `autoDiscover_mapping_precedes_import` at the environment
whose single controller file fails to load. -/
theorem autoDiscover_mapping_precedes_import_witness :
    failingDiscoveryEnv.dirExists = true
    ∧ (autoDiscoverControllers failingDiscoveryEnv ([] : RegState Unit)).1
        = (failingDiscoveryEnv.files.filter isControllerFile).map mappingOfFile :=
  ⟨rfl, (autoDiscover_mapping_precedes_import failingDiscoveryEnv [] rfl).1⟩

/-- C7 (counterexample): the fallback derivation uses JS
`name.replace("Controller", "")`, which removes the FIRST occurrence of
`"Controller"`, not a trailing suffix: for the registered name
`"XControllerY"` the code derives entity `"xy"` and prefix `"/xys"`,
while stripping a trailing `"Controller"` suffix as the claim words it
leaves `"xcontrollery"` and prefix `"/xcontrollerys"`. -/
theorem fallbackDerivation_counterexample :
    deriveEntityName "XControllerY" = "xy"
    ∧ deriveEntityNameSpec "XControllerY" = "xcontrollery"
    ∧ generateDynamicRouteMappings [("XControllerY", ())]
        = [{ controllerName := "XControllerY", routePfx := "/xys" }]
    ∧ pluralizePfx (deriveEntityNameSpec "XControllerY") = "/xcontrollerys"
    ∧ deriveEntityName "XControllerY" ≠ deriveEntityNameSpec "XControllerY" := by
  decide

/-- C7 (amended): `initialize` selects mappings with precedence
customMappings > controllersDir > routesDir > registry-derived fallback;
the fallback derives, for each already-registered controller name, the
entity by removing the first occurrence of `"Controller"` (for ordinary
names this is the trailing suffix) and lowercasing, and the prefix by
prepending `/` and appending `s` unless the entity already ends in `s`. -/
theorem initRouteMappings_precedence {M RD : Type}
    (scanRoutesDir : RD → List RouteMapping) (routesDir : Option RD)
    (controllersDir : Option (DiscoveryEnv M)) (ms : List RouteMapping)
    (rd : RD) (env : DiscoveryEnv M) (st : RegState M) :
    initRouteMappings scanRoutesDir routesDir (some ms) controllersDir st
      = (ms, st)
    ∧ initRouteMappings scanRoutesDir routesDir none (some env) st
      = autoDiscoverControllers env st
    ∧ initRouteMappings scanRoutesDir (some rd) none none st
      = (scanRoutesDir rd, st)
    ∧ initRouteMappings scanRoutesDir none none
        (none : Option (DiscoveryEnv M)) st
      = (generateDynamicRouteMappings st, st)
    ∧ generateDynamicRouteMappings st
      = st.map (fun p =>
          { controllerName := p.1
            routePfx := pluralizePfx (deriveEntityName p.1) }) :=
  ⟨rfl, rfl, rfl, rfl, rfl⟩

/-- C2: for a route whose path is exactly `"/"` the documentation
generator's public path is exactly `basePath + routePrefix` with no
trailing slash; for any other path made of well-formed segments, every
`:seg` segment becomes `\x7bseg\x7d` and no other character changes, the
result being appended to `basePath + routePrefix`. -/
theorem docPath_param_substitution (basePath routePfx : List Char)
    (segs : List (List Char))
    (hwf : ∀ seg ∈ segs, wfSegB seg = true) :
    publicPathOf basePath routePfx ['/'] = basePath ++ routePfx
    ∧ (joinSlash segs ≠ ['/'] →
        publicPathOf basePath routePfx (joinSlash segs)
          = basePath ++ routePfx ++ joinSlash (segs.map specSegTransform)) := by
  constructor
  · have h1 : replaceParams ['/'] = ['/'] := by
      rw [replaceParams_cons_ne_colon _ (by decide : ¬ '/' = ':'),
        replaceParams_nil]
    simp [publicPathOf, pathKeyOf, h1]
  · intro hne
    have hslash : ¬ replaceParams (joinSlash segs) = ['/'] := fun hh =>
      hne (replaceParams_eq_slash hh)
    have hrp := replaceParams_joinSlash hwf
    simp only [publicPathOf, pathKeyOf]
    rw [if_neg hslash, if_neg hslash, hrp]

/-- Witness for `docPath_param_substitution` on the route path
`/users/:id` under base path `/v1` and route prefix `/users`. -/
theorem docPath_param_substitution_witness :
    ((∀ seg ∈ [([] : List Char), "users".data, ":id".data], wfSegB seg = true)
     ∧ joinSlash [([] : List Char), "users".data, ":id".data] ≠ ['/'])
    ∧ publicPathOf "/v1".data "/users".data ['/'] = "/v1".data ++ "/users".data
    ∧ publicPathOf "/v1".data "/users".data
        (joinSlash [([] : List Char), "users".data, ":id".data])
      = "/v1".data ++ "/users".data
        ++ joinSlash
            ([([] : List Char), "users".data, ":id".data].map specSegTransform) :=
  ⟨⟨by decide, by decide⟩,
    (docPath_param_substitution "/v1".data "/users".data
      [[], "users".data, ":id".data] (by decide)).1,
    (docPath_param_substitution "/v1".data "/users".data
      [[], "users".data, ":id".data] (by decide)).2 (by decide)⟩

end ApiCore
